import Mathlib

/-!
Shallow embedding of the `maxzysparks/webscraper` repository.

The repository's visible source (`src/ghost.js`) holds the Express/Joi
wiring: the `scrapeRequestSchema` Joi object, the `WebScraper` constructor
with its Joi config schema, the `ScraperError` class and the Express
`errorHandler` middleware.  Those are embedded directly from the code.

The Job Orchestration & Retry Engine described in the specification (job
queue with `peekAdmissible`/`markInFlight`, retry/backoff controller,
proxy pool manager, domain rate limiter, dispatcher) has no implementation
under `src/`; the definitions for those components are modelled from the
spec, each marked `Modelled from the spec:` in its doc comment.

Machine numbers are embedded as `Int`/`Nat`; Joi's `number()` range checks
are order comparisons on `Int`.  Joi's RFC URI grammar lives in the external
`joi` library, so URI well-formedness is a parameter `isUri : String → Bool`
of every definition that needs it.
-/

/-- Embeds the `ScraperError` class of `src/ghost.js` (lines 37–45): an
error value carrying `message`, `code` and `details`. -/
structure ScraperError where
  message : String
  code : String
  details : String
deriving DecidableEq, Repr

/-- Input to the `WebScraper` constructor: a JS object in which every
config key may be absent (Joi fills defaults). -/
structure ScraperConfigInput where
  timeout : Option Int := none
  retries : Option Int := none
  delay : Option Int := none
  maxConcurrent : Option Int := none
  proxyList : Option (List String) := none
deriving DecidableEq, Repr

/-- A validated configuration, after Joi has applied range checks and
defaults (`src/ghost.js` lines 138–144). -/
structure ScraperConfig where
  timeout : Int
  retries : Int
  delay : Int
  maxConcurrent : Int
  proxyList : List String
deriving DecidableEq, Repr

/-- Embeds one `Joi.number().min(lo).max(hi).default(dflt)` field: an
absent value takes the default, a present value must lie in `[lo, hi]`. -/
def checkRange (lo hi dflt : Int) (field : String) (v : Option Int) : Except String Int :=
  match v with
  | none => .ok dflt
  | some x => if lo ≤ x ∧ x ≤ hi then .ok x else .error (field ++ " out of bounds")

/-- Embeds `configSchema.validate(config)` of `src/ghost.js` lines 138–146:
timeout in [1000, 60000] default 10000, retries in [1, 10] default 3,
delay in [100, 10000] default 1000, maxConcurrent in [1, 100] default 5,
proxyList an array of strings defaulting to `[]`. -/
def validateConfig (c : ScraperConfigInput) : Except String ScraperConfig :=
  match checkRange 1000 60000 10000 "timeout" c.timeout with
  | .error e => .error e
  | .ok t =>
    match checkRange 1 10 3 "retries" c.retries with
    | .error e => .error e
    | .ok r =>
      match checkRange 100 10000 1000 "delay" c.delay with
      | .error e => .error e
      | .ok d =>
        match checkRange 1 100 5 "maxConcurrent" c.maxConcurrent with
        | .error e => .error e
        | .ok m => .ok ⟨t, r, d, m, c.proxyList.getD []⟩

/-- Embeds the `WebScraper` constructor of `src/ghost.js` lines 137–153:
on a Joi validation error it throws
`ScraperError('Invalid configuration', 'CONFIG_ERROR', error.details)`,
otherwise it stores the validated config. -/
def webScraperConstructor (c : ScraperConfigInput) : Except ScraperError ScraperConfig :=
  match validateConfig c with
  | .error d => .error ⟨"Invalid configuration", "CONFIG_ERROR", d⟩
  | .ok v => .ok v

/-- Decides whether one optional numeric field lies outside `[lo, hi]`
(an absent field takes the in-range default, so it is never out). -/
def outsideBounds (lo hi : Int) (v : Option Int) : Bool :=
  match v with
  | none => false
  | some x => decide (x < lo) || decide (hi < x)

/-- Decides whether a config argument violates the numeric parameter
bounds of the Joi config schema (`src/ghost.js` lines 139–142).  The
`proxyList` field is an array of plain strings in the schema, so any
`List String` value for it is within bounds. -/
def violatesBounds (c : ScraperConfigInput) : Bool :=
  outsideBounds 1000 60000 c.timeout || outsideBounds 1 10 c.retries ||
    outsideBounds 100 10000 c.delay || outsideBounds 1 100 c.maxConcurrent

/-- Request body for `POST /api/scrape` before validation: each field of
the JS object may be absent. -/
structure ScrapeRequestInput where
  urls : Option (List String) := none
  priority : Option Int := none
  callback : Option String := none
deriving DecidableEq, Repr

/-- A scrape request after Joi validation (defaults applied). -/
structure ScrapeRequest where
  urls : List String
  priority : Int
  callback : Option String
deriving DecidableEq, Repr

/-- Embeds `scrapeRequestSchema` of `src/ghost.js` lines 130–134:
`urls` is a required array of 1–100 URI strings, `priority` is a number in
[1, 5] defaulting to 3, `callback` is an optional URI string.  The Joi URI
grammar is the parameter `isUri`. -/
def validateScrapeRequest (isUri : String → Bool) (r : ScrapeRequestInput) :
    Except String ScrapeRequest :=
  match r.urls with
  | none => .error "urls is required"
  | some us =>
    if us.length < 1 then .error "urls must contain at least 1 items"
    else if 100 < us.length then .error "urls must contain at most 100 items"
    else if ¬ us.all isUri then .error "urls items must be valid uris"
    else
      match checkRange 1 5 3 "priority" r.priority with
      | .error e => .error e
      | .ok p =>
        match r.callback with
        | none => .ok ⟨us, p, none⟩
        | some cb =>
          if isUri cb then .ok ⟨us, p, some cb⟩
          else .error "callback must be a valid uri"

/-- An error value reaching the Express `errorHandler`: whether it is an
instance of `ScraperError`, its `name`, `message`, `code` and `details`. -/
structure ApiError where
  isScraperError : Bool
  name : String
  message : String
  code : String
  details : String
deriving DecidableEq, Repr

/-- The three response shapes `errorHandler` can produce
(`src/ghost.js` lines 232–250). -/
inductive ApiResponse where
  | scraperErr (error code details : String)
  | validationErr (details : String)
  | internalErr (requestId : String)
deriving DecidableEq, Repr

/-- HTTP status of each response shape. -/
def ApiResponse.status : ApiResponse → Nat
  | .scraperErr _ _ _ => 400
  | .validationErr _ => 400
  | .internalErr _ => 500

/-- Embeds the `errorHandler` middleware of `src/ghost.js` lines 221–251:
a `ScraperError` yields 400 with its message, code and details; an error
whose `name` is `ValidationError` yields 400 with its details; every other
error yields a 500 body holding only the fixed text and the request id. -/
def errorHandler (err : ApiError) (requestId : String) : ApiResponse :=
  if err.isScraperError then .scraperErr err.message err.code err.details
  else if err.name = "ValidationError" then .validationErr err.details
  else .internalErr requestId

/-- Modelled from the spec: the Job state set of §3 / §4.7 — a job is in
exactly one of pending, in-flight, retry-scheduled, succeeded, failed. -/
inductive JobState where
  | pending
  | inFlight
  | retryScheduled
  | succeeded
  | failed
deriving DecidableEq, Repr

/-- Terminal states are `succeeded` and `failed` (§ Glossary). -/
def JobState.isTerminal : JobState → Bool
  | .succeeded => true
  | .failed => true
  | _ => false

/-- Modelled from the spec: the four attempt-outcome classes produced by
the Retry/Backoff Controller's `classify` (§4.3). -/
inductive RawOutcome where
  | success
  | retryableFailure
  | captchaChallenge
  | fatalFailure
deriving DecidableEq, Repr

/-- Modelled from the spec: the per-job retry bookkeeping the dispatcher
drives — current state and attempt count (§3 Job). -/
structure RJob where
  state : JobState
  attemptCount : Nat
deriving DecidableEq, Repr

/-- A freshly submitted job: pending with zero attempts. -/
def freshJob : RJob := ⟨.pending, 0⟩

/-- Modelled from the spec: one dispatcher pass over a job (§4.3, §4.7),
with `ceiling` the configured retry ceiling (the `retries` config value).
A terminal job is untouched; a job already at the ceiling moves to
`failed` unconditionally, whatever the raw outcome ("exceeding it forces
`FatalFailure` regardless of the raw outcome"); otherwise the attempt runs:
Success finalizes as succeeded, FatalFailure as failed, and the two
retriable classes reschedule unless this attempt exhausted the ceiling. -/
def runAttempt (ceiling : Nat) (j : RJob) (raw : RawOutcome) : RJob :=
  if j.state.isTerminal then j
  else if ceiling ≤ j.attemptCount then { j with state := .failed }
  else
    let n := j.attemptCount + 1
    match raw with
    | .success => ⟨.succeeded, n⟩
    | .fatalFailure => ⟨.failed, n⟩
    | .retryableFailure =>
      if ceiling ≤ n then ⟨.failed, n⟩ else ⟨.retryScheduled, n⟩
    | .captchaChallenge =>
      if ceiling ≤ n then ⟨.failed, n⟩ else ⟨.retryScheduled, n⟩

/-- Runs `k` dispatcher passes on a fresh job, every attempt classified
`RetryableFailure`. -/
def runRetryable (ceiling : Nat) : Nat → RJob
  | 0 => freshJob
  | k + 1 => runAttempt ceiling (runRetryable ceiling k) .retryableFailure

/-- Runs a fresh job through an arbitrary sequence of raw outcomes. -/
def runOutcomes (ceiling : Nat) (outs : List RawOutcome) : RJob :=
  outs.foldl (runAttempt ceiling) freshJob

/-- Modelled from the spec: constructing the scraper and then driving one
job through a sequence of attempt outcomes under the configured retry
ceiling; a configuration error aborts at admission, before any attempt. -/
def scrapeWithConfig (c : ScraperConfigInput) (outs : List RawOutcome) :
    Except ScraperError RJob :=
  match webScraperConstructor c with
  | .error e => .error e
  | .ok v => .ok (runOutcomes v.retries.toNat outs)

/-- Modelled from the spec: a queued job record (§3 Job) — identifier,
target URL, priority (1 highest – 5 lowest), submission time, state, and
the `notBefore` instant of a scheduled retry (0 when none). -/
structure QJob where
  id : Nat
  url : String
  priority : Int
  submitTime : Nat
  state : JobState
  notBefore : Nat
deriving DecidableEq, Repr

/-- Modelled from the spec: a job is ready (admissible) at `now` when it
is pending, or retry-scheduled with its `notBefore` elapsed (§4.1). -/
def readyAt (now : Nat) (j : QJob) : Bool :=
  match j.state with
  | .pending => true
  | .retryScheduled => decide (j.notBefore ≤ now)
  | _ => false

/-- The queue's selection order: strictly smaller priority value, or equal
priority and strictly earlier submission (§4.1 Ordering). -/
def beats (a b : QJob) : Bool :=
  decide (a.priority < b.priority) ||
    (decide (a.priority = b.priority) && decide (a.submitTime < b.submitTime))

/-- Keeps the better of two candidates, preferring the incumbent on a tie. -/
def betterOf (a b : QJob) : QJob := if beats b a then b else a

/-- Modelled from the spec: `peekAdmissible(now)` (§4.1) — among ready
jobs, the one with the smallest priority value, then the earliest
submission time. -/
def peekAdmissible (now : Nat) (jobs : List QJob) : Option QJob :=
  match jobs.filter (readyAt now) with
  | [] => none
  | j :: js => some (js.foldl betterOf j)

/-- The selection preorder `peekAdmissible` minimizes: `r` precedes `j` by
ascending priority value, then ascending submission time. -/
def precedes (r j : QJob) : Prop :=
  r.priority < j.priority ∨ (r.priority = j.priority ∧ r.submitTime ≤ j.submitTime)

/-- Marks the job with the given id succeeded (a completed dispatch by an
always-succeeding executor). -/
def completeJob (i : Nat) (jobs : List QJob) : List QJob :=
  jobs.map fun j => if j.id = i then { j with state := .succeeded } else j

/-- Modelled from the spec: a single worker with an always-succeeding
executor repeatedly pulls the admissible job and finalizes it, recording
the priority of each dispatched job in order (§8 Scenario). -/
def dispatchOrder (now : Nat) : Nat → List QJob → List Int
  | 0, _ => []
  | fuel + 1, jobs =>
    match peekAdmissible now jobs with
    | none => []
    | some j => j.priority :: dispatchOrder now fuel (completeJob j.id jobs)

/-- Modelled from the spec: `markInFlight(jobId)` (§4.1) — moves the job
with the given id to in-flight, except that an already-terminal job is
left untouched (idempotent no-op). -/
def markInFlight (i : Nat) (jobs : List QJob) : List QJob :=
  jobs.map fun j =>
    if j.id = i && !j.state.isTerminal then { j with state := .inFlight } else j

/-- Modelled from the spec: proxy health states (§3 Proxy). -/
inductive ProxyHealth where
  | healthy
  | degraded
  | quarantined
deriving DecidableEq, Repr

/-- Modelled from the spec: a proxy record — address, health state,
consecutive-failure counter, and the instant its quarantine cool-down
expires (§3 Proxy, §4.4). -/
structure Proxy where
  addr : String
  health : ProxyHealth
  consecFailures : Nat
  cooldownUntil : Nat
deriving DecidableEq, Repr

/-- Modelled from the spec: whether selection may return this proxy at
`now` — quarantined proxies are skipped until their cool-down elapses, at
which point the proxy may be tried once as a probe (§4.4). -/
def selectable (now : Nat) (p : Proxy) : Bool :=
  match p.health with
  | .quarantined => decide (p.cooldownUntil ≤ now)
  | _ => true

/-- Modelled from the spec: `acquire()` (§4.4) — the first selectable
proxy of the rotation, `none` when every proxy is quarantined inside its
cool-down. -/
def acquire (now : Nat) (pool : List Proxy) : Option Proxy :=
  pool.find? (selectable now)

/-- Modelled from the spec: `reportOutcome(proxyId, success)` (§4.4) —
a success resets the consecutive-failure counter and restores `healthy`;
a failure increments it, moving the proxy to `quarantined` with a fresh
cool-down when the threshold is crossed and to `degraded` from `healthy`
otherwise. -/
def reportOutcome (now cooldownMs threshold : Nat) (p : Proxy) (success : Bool) : Proxy :=
  if success then { p with consecFailures := 0, health := .healthy }
  else
    let f := p.consecFailures + 1
    if threshold ≤ f then
      { p with consecFailures := f, health := .quarantined, cooldownUntil := now + cooldownMs }
    else
      { p with consecFailures := f,
               health := if p.health = .healthy then .degraded else p.health }

/-- Modelled from the spec: a proxy's observable lifecycle — an outcome is
reported only for an attempt, and an attempt only uses a proxy that
selection could return at that instant (§4.4, §5 single-writer rule). -/
inductive ProxyStep (cooldownMs threshold : Nat) : Proxy → Proxy → Prop
  | attempt (now : Nat) (p : Proxy) (success : Bool)
      (hsel : selectable now p = true) :
      ProxyStep cooldownMs threshold p (reportOutcome now cooldownMs threshold p success)

/-- Modelled from the spec: per-domain counters — in-flight count and the
timestamp of the last successful acquire (§3 DomainWindow). -/
structure DomainWindow where
  inFlight : Nat
  lastDispatch : Option Nat
deriving DecidableEq, Repr

/-- A domain window before its first sight: no in-flight work, no
last-dispatch stamp. -/
def emptyWindow : DomainWindow := ⟨0, none⟩

/-- Modelled from the spec: the spacing half of the `tryAcquire` guard —
at least `minSpacingMs` has elapsed since the last successful acquire
(vacuous for a fresh window) (§4.2). -/
def spacingOk (minSpacingMs now : Nat) (w : DomainWindow) : Bool :=
  match w.lastDispatch with
  | none => true
  | some t => decide (t + minSpacingMs ≤ now)

/-- Modelled from the spec: `tryAcquire(domain)` (§4.2) — succeeds only
if the in-flight count is below the concurrency cap and the spacing has
elapsed; on success it increments in-flight and stamps the dispatch
time. -/
def tryAcquire (cap minSpacingMs now : Nat) (w : DomainWindow) : Bool × DomainWindow :=
  if w.inFlight < cap ∧ spacingOk minSpacingMs now w = true then
    (true, ⟨w.inFlight + 1, some now⟩)
  else (false, w)

/-- Modelled from the spec: `release(domain)` (§4.2) — decrements the
in-flight count, called once per attempt completion. -/
def releaseWindow (w : DomainWindow) : DomainWindow :=
  ⟨w.inFlight - 1, w.lastDispatch⟩

/-- Modelled from the spec: the two operations a domain window undergoes
(§4.2); all mutation goes through `tryAcquire` and `release`. -/
inductive LimStep (cap minSpacingMs : Nat) : DomainWindow → DomainWindow → Prop
  | acq (now : Nat) (w : DomainWindow) :
      LimStep cap minSpacingMs w (tryAcquire cap minSpacingMs now w).2
  | rel (w : DomainWindow) :
      LimStep cap minSpacingMs w (releaseWindow w)

/-- Reachable limiter states: the lazily created empty window, closed
under limiter steps. -/
inductive LimReachable (cap minSpacingMs : Nat) : DomainWindow → Prop
  | init : LimReachable cap minSpacingMs emptyWindow
  | step (w v : DomainWindow) : LimReachable cap minSpacingMs w →
      LimStep cap minSpacingMs w v → LimReachable cap minSpacingMs v

/-- Modelled from the spec: a dispatcher pass over one admissible job
under the domain limiter (§4.2 starvation avoidance) — when `tryAcquire`
fails the job is requeued as retry-scheduled with a short `notBefore`,
never dropped. -/
def dispatchUnderLimit (cap minSpacingMs now backoff : Nat) (w : DomainWindow)
    (j : QJob) (queue : List QJob) : DomainWindow × List QJob :=
  match tryAcquire cap minSpacingMs now w with
  | (true, w2) => (w2, queue)
  | (false, _) =>
    (w, queue ++ [{ j with state := .retryScheduled, notBefore := now + backoff }])

/-- Modelled from the spec: the shared dispatch state under concurrent
workers (§5) — the set of (job, worker) in-flight claims and the pending
job ids. -/
structure DispatchSys where
  flight : List (Nat × Nat)
  pendingJobs : List Nat
deriving DecidableEq, Repr

/-- Modelled from the spec: worker steps against the shared queue (§5).
`claim` is the atomic `peekAdmissible`+`markInFlight` pair: in one step a
worker takes a pending job that no worker holds; `finish` completes an
attempt, optionally requeueing the job for retry. -/
inductive DispatchStep : DispatchSys → DispatchSys → Prop
  | claim (w j : Nat) (s : DispatchSys)
      (hp : j ∈ s.pendingJobs) (hf : ∀ wp, (j, wp) ∉ s.flight) :
      DispatchStep s ⟨(j, w) :: s.flight, s.pendingJobs.erase j⟩
  | finish (w j : Nat) (requeue : Bool) (s : DispatchSys)
      (hf : (j, w) ∈ s.flight) :
      DispatchStep s ⟨s.flight.erase (j, w),
                      if requeue then j :: s.pendingJobs else s.pendingJobs⟩

/-- States reachable from an initial state with no job in flight. -/
inductive DispatchReachable : DispatchSys → Prop
  | init (pj : List Nat) : DispatchReachable ⟨[], pj⟩
  | step (s t : DispatchSys) : DispatchReachable s → DispatchStep s t →
      DispatchReachable t

/-- Modelled from the spec: `enqueue` for a validated batch (§4.1, §6) —
one pending job per URL, at the request's priority, submitted in batch
order from `now`. -/
def queueScrape (now : Nat) (r : ScrapeRequest) : List QJob :=
  (List.range r.urls.length).zip r.urls |>.map fun iu =>
    ⟨now + iu.1, iu.2, r.priority, now + iu.1, .pending, 0⟩

/-- The `POST /api/scrape` pipeline of `src/ghost.js` lines 254–276: the
`celebrate` middleware validates the body against `scrapeRequestSchema`
and rejects before the handler runs; only a validated request reaches
enqueue. -/
def handleScrapeRoute (isUri : String → Bool) (now : Nat) (r : ScrapeRequestInput) :
    Except String (List QJob) :=
  match validateScrapeRequest isUri r with
  | .error e => .error e
  | .ok v => .ok (queueScrape now v)

/-- The §8 scenario batch: three pending jobs submitted in order with
priorities 1, 5, 3. -/
def scenarioJobs : List QJob :=
  [⟨0, "https://a.example", 1, 0, .pending, 0⟩,
   ⟨1, "https://b.example", 5, 1, .pending, 0⟩,
   ⟨2, "https://c.example", 3, 2, .pending, 0⟩]

theorem checkRange_ok_bounds (lo hi dflt : Int) (field : String) (v : Option Int)
    (x : Int) (hd : lo ≤ dflt ∧ dflt ≤ hi)
    (h : checkRange lo hi dflt field v = .ok x) : lo ≤ x ∧ x ≤ hi := by
  cases v with
  | none =>
    simp only [checkRange] at h
    injection h with h
    omega
  | some y =>
    simp only [checkRange] at h
    split at h
    · injection h with h
      omega
    · exact Except.noConfusion h

theorem checkRange_ok_not_out (lo hi dflt : Int) (field : String) (v : Option Int)
    (x : Int) (h : checkRange lo hi dflt field v = .ok x) :
    outsideBounds lo hi v = false := by
  cases v with
  | none => rfl
  | some y =>
    simp only [checkRange] at h
    split at h
    · next hy =>
      simp only [outsideBounds, Bool.or_eq_false_iff, decide_eq_false_iff_not]
      omega
    · exact Except.noConfusion h

theorem validateConfig_ok_not_violating (c : ScraperConfigInput) (v : ScraperConfig)
    (h : validateConfig c = .ok v) : violatesBounds c = false := by
  unfold validateConfig at h
  cases h1 : checkRange 1000 60000 10000 "timeout" c.timeout with
  | error e => rw [h1] at h; exact Except.noConfusion h
  | ok t =>
  rw [h1] at h
  cases h2 : checkRange 1 10 3 "retries" c.retries with
  | error e => rw [h2] at h; exact Except.noConfusion h
  | ok r =>
  rw [h2] at h
  cases h3 : checkRange 100 10000 1000 "delay" c.delay with
  | error e => rw [h3] at h; exact Except.noConfusion h
  | ok d =>
  rw [h3] at h
  cases h4 : checkRange 1 100 5 "maxConcurrent" c.maxConcurrent with
  | error e => rw [h4] at h; exact Except.noConfusion h
  | ok m =>
  simp only [violatesBounds,
    checkRange_ok_not_out _ _ _ _ _ _ h1, checkRange_ok_not_out _ _ _ _ _ _ h2,
    checkRange_ok_not_out _ _ _ _ _ _ h3, checkRange_ok_not_out _ _ _ _ _ _ h4,
    Bool.or_self, Bool.or_false]

/-- C10: every `ScraperError` reaching the API error handler yields HTTP
400 carrying its message, code and details; an error named
`ValidationError` yields HTTP 400 with its details; every other error
yields HTTP 500 with the generic internal-server-error body, which holds
only the request id and in particular never the error's message. -/
theorem errorHandler_branches (err : ApiError) (rid : String) :
    (err.isScraperError = true →
      errorHandler err rid = .scraperErr err.message err.code err.details ∧
      (errorHandler err rid).status = 400) ∧
    (err.isScraperError = false → err.name = "ValidationError" →
      errorHandler err rid = .validationErr err.details ∧
      (errorHandler err rid).status = 400) ∧
    (err.isScraperError = false → err.name ≠ "ValidationError" →
      errorHandler err rid = .internalErr rid ∧
      (errorHandler err rid).status = 500) := by
  refine ⟨?_, ?_, ?_⟩
  · intro h
    simp [errorHandler, h, ApiResponse.status]
  · intro h1 h2
    simp [errorHandler, h1, h2, ApiResponse.status]
  · intro h1 h2
    simp [errorHandler, h1, h2, ApiResponse.status]

theorem errorHandler_branches_witness :
    errorHandler ⟨true, "ScraperError", "boom", "CONFIG_ERROR", "d"⟩ "req1" =
      .scraperErr "boom" "CONFIG_ERROR" "d" :=
  ((errorHandler_branches ⟨true, "ScraperError", "boom", "CONFIG_ERROR", "d"⟩
    "req1").1 rfl).1

/-- C8: a configuration argument violating the schema's parameter bounds
makes the `WebScraper` constructor raise a `ScraperError` with code
`CONFIG_ERROR` at admission time, and that error is never retried: the
scrape pipeline returns the same configuration error for every sequence
of attempt outcomes, running no attempt. -/
theorem config_error_admission (c : ScraperConfigInput)
    (h : violatesBounds c = true) :
    ∃ d, webScraperConstructor c = .error ⟨"Invalid configuration", "CONFIG_ERROR", d⟩ ∧
      ∀ outs, scrapeWithConfig c outs =
        .error ⟨"Invalid configuration", "CONFIG_ERROR", d⟩ := by
  cases hvc : validateConfig c with
  | ok v =>
    rw [validateConfig_ok_not_violating c v hvc] at h
    exact Bool.noConfusion h
  | error d =>
    refine ⟨d, ?_, ?_⟩
    · simp [webScraperConstructor, hvc]
    · intro outs
      simp [scrapeWithConfig, webScraperConstructor, hvc]

theorem config_error_admission_witness :
    ∃ d, webScraperConstructor ⟨none, some 0, none, none, none⟩ =
        .error ⟨"Invalid configuration", "CONFIG_ERROR", d⟩ ∧
      ∀ outs, scrapeWithConfig ⟨none, some 0, none, none, none⟩ outs =
        .error ⟨"Invalid configuration", "CONFIG_ERROR", d⟩ :=
  config_error_admission ⟨none, some 0, none, none, none⟩ rfl

theorem validateScrapeRequest_ok (isUri : String → Bool) (r : ScrapeRequestInput)
    (v : ScrapeRequest) (h : validateScrapeRequest isUri r = .ok v) :
    r.urls = some v.urls ∧ 1 ≤ v.urls.length ∧ v.urls.length ≤ 100 ∧
      v.urls.all isUri = true ∧
      checkRange 1 5 3 "priority" r.priority = .ok v.priority := by
  unfold validateScrapeRequest at h
  cases hu : r.urls with
  | none => rw [hu] at h; exact Except.noConfusion h
  | some us =>
  rw [hu] at h
  dsimp only at h
  by_cases h1 : us.length < 1
  · rw [if_pos h1] at h; exact Except.noConfusion h
  rw [if_neg h1] at h
  by_cases h2 : 100 < us.length
  · rw [if_pos h2] at h; exact Except.noConfusion h
  rw [if_neg h2] at h
  by_cases h3 : us.all isUri = true
  swap
  · rw [if_pos h3] at h; exact Except.noConfusion h
  rw [if_neg (not_not_intro h3)] at h
  cases hp : checkRange 1 5 3 "priority" r.priority with
  | error e => rw [hp] at h; exact Except.noConfusion h
  | ok p =>
  rw [hp] at h
  dsimp only at h
  cases hcb : r.callback with
  | none =>
    rw [hcb] at h
    dsimp only at h
    injection h with h
    subst h
    exact ⟨rfl, show 1 ≤ us.length by omega, show us.length ≤ 100 by omega, h3, rfl⟩
  | some cb =>
    rw [hcb] at h
    dsimp only at h
    by_cases hc : isUri cb = true
    · rw [if_pos hc] at h
      injection h with h
      subst h
      exact ⟨rfl, show 1 ≤ us.length by omega, show us.length ≤ 100 by omega, h3, rfl⟩
    · rw [if_neg hc] at h
      exact Except.noConfusion h

/-- C9: a scrape request omitting `priority` is validated with the default
priority 3; the `urls` field is required, must hold between 1 and 100
entries, and every entry must pass the URI well-formedness check. -/
theorem scrape_request_defaults (isUri : String → Bool) (r : ScrapeRequestInput) :
    (r.urls = none → validateScrapeRequest isUri r = .error "urls is required") ∧
    (∀ v, validateScrapeRequest isUri r = .ok v →
      (r.priority = none → v.priority = 3) ∧
      r.urls = some v.urls ∧ 1 ≤ v.urls.length ∧ v.urls.length ≤ 100 ∧
      ∀ u ∈ v.urls, isUri u = true) := by
  constructor
  · intro h
    simp [validateScrapeRequest, h]
  · intro v hv
    obtain ⟨hu, h1, h2, h3, hp⟩ := validateScrapeRequest_ok isUri r v hv
    refine ⟨?_, hu, h1, h2, ?_⟩
    · intro hnone
      rw [hnone] at hp
      simp only [checkRange] at hp
      injection hp with hp
      omega
    · intro u hu2
      exact List.all_eq_true.mp h3 u hu2

theorem scrape_request_defaults_witness :
    (⟨["https://x"], 3, none⟩ : ScrapeRequest).priority = 3 ∧
      1 ≤ (⟨["https://x"], 3, none⟩ : ScrapeRequest).urls.length :=
  have h := (scrape_request_defaults (fun _ => true)
    ⟨some ["https://x"], none, none⟩).2 ⟨["https://x"], 3, none⟩ rfl
  ⟨h.1 rfl, h.2.2.1⟩

/-- C6: the scrape route rejects a request holding a malformed URL, and a
priority outside 1–5, before enqueueing anything; a request that does
reach enqueue yields only jobs with well-formed URLs, priority within
1–5, in a batch of at most the configured cap of 100. -/
theorem validation_before_enqueue (isUri : String → Bool) (now : Nat)
    (r : ScrapeRequestInput) :
    (∀ us u, r.urls = some us → u ∈ us → isUri u = false →
      ∃ e, handleScrapeRoute isUri now r = .error e) ∧
    (∀ p, r.priority = some p → p < 1 ∨ 5 < p →
      ∃ e, handleScrapeRoute isUri now r = .error e) ∧
    (∀ jobs, handleScrapeRoute isUri now r = .ok jobs →
      jobs.length ≤ 100 ∧
      ∀ j ∈ jobs, isUri j.url = true ∧ 1 ≤ j.priority ∧ j.priority ≤ 5 ∧
        j.state = .pending) := by
  refine ⟨?_, ?_, ?_⟩
  · intro us u hus hu hfail
    cases hres : validateScrapeRequest isUri r with
    | error e => exact ⟨e, by simp [handleScrapeRoute, hres]⟩
    | ok v =>
      obtain ⟨hu2, _, _, h3, _⟩ := validateScrapeRequest_ok isUri r v hres
      rw [hus] at hu2
      injection hu2 with hu2
      rw [← hu2] at h3
      have := List.all_eq_true.mp h3 u hu
      rw [hfail] at this
      exact Bool.noConfusion this
  · intro p hp hout
    cases hres : validateScrapeRequest isUri r with
    | error e => exact ⟨e, by simp [handleScrapeRoute, hres]⟩
    | ok v =>
      obtain ⟨_, _, _, _, hpr⟩ := validateScrapeRequest_ok isUri r v hres
      rw [hp] at hpr
      unfold checkRange at hpr
      dsimp only at hpr
      rw [if_neg (by omega)] at hpr
      exact Except.noConfusion hpr
  · intro jobs hj
    unfold handleScrapeRoute at hj
    cases hres : validateScrapeRequest isUri r with
    | error e => rw [hres] at hj; exact Except.noConfusion hj
    | ok v =>
      rw [hres] at hj
      dsimp only at hj
      injection hj with hj
      subst hj
      obtain ⟨_, _, h2, h3, hpr⟩ := validateScrapeRequest_ok isUri r v hres
      have hbounds : 1 ≤ v.priority ∧ v.priority ≤ 5 :=
        checkRange_ok_bounds 1 5 3 "priority" r.priority v.priority (by norm_num) hpr
      constructor
      · simpa [queueScrape] using h2
      · intro j hjm
        simp only [queueScrape, List.mem_map] at hjm
        obtain ⟨⟨i, u⟩, hiu, rfl⟩ := hjm
        have hmem := (List.of_mem_zip hiu).2
        exact ⟨List.all_eq_true.mp h3 u hmem, hbounds.1, hbounds.2, rfl⟩

theorem validation_before_enqueue_witness :
    ([⟨0, "https://x", 3, 0, .pending, 0⟩] : List QJob).length ≤ 100 ∧
      ∀ j ∈ ([⟨0, "https://x", 3, 0, .pending, 0⟩] : List QJob),
        (fun _ => true) j.url = true ∧ 1 ≤ j.priority ∧ j.priority ≤ 5 ∧
          j.state = .pending :=
  (validation_before_enqueue (fun _ => true) 0
    ⟨some ["https://x"], none, none⟩).2.2
    [⟨0, "https://x", 3, 0, .pending, 0⟩] rfl

theorem runAttempt_terminal (c : Nat) (j : RJob) (raw : RawOutcome)
    (ht : j.state.isTerminal = true) : runAttempt c j raw = j := by
  unfold runAttempt
  rw [ht, if_pos rfl]

theorem runAttempt_breach (c : Nat) (j : RJob) (raw : RawOutcome)
    (ht : j.state.isTerminal = false) (hb : c ≤ j.attemptCount) :
    runAttempt c j raw = ⟨.failed, j.attemptCount⟩ := by
  unfold runAttempt
  rw [ht, if_neg Bool.false_ne_true, if_pos hb]

theorem runAttempt_retryable (c : Nat) (s : JobState) (n : Nat)
    (hs : s.isTerminal = false) (hn : n < c) :
    runAttempt c ⟨s, n⟩ .retryableFailure =
      if c ≤ n + 1 then ⟨.failed, n + 1⟩ else ⟨.retryScheduled, n + 1⟩ := by
  unfold runAttempt
  dsimp only
  rw [hs, if_neg Bool.false_ne_true, if_neg (Nat.not_le.mpr hn)]

theorem runAttempt_count (c : Nat) (s : JobState) (n : Nat) (raw : RawOutcome)
    (hs : s.isTerminal = false) (hn : n < c) :
    (runAttempt c ⟨s, n⟩ raw).attemptCount = n + 1 := by
  unfold runAttempt
  dsimp only
  rw [hs, if_neg Bool.false_ne_true, if_neg (Nat.not_le.mpr hn)]
  cases raw <;> dsimp only <;> first | rfl | (split <;> rfl)

theorem runRetryable_closed (c : Nat) (hc : 1 ≤ c) (k : Nat) :
    runRetryable c k =
      if k = 0 then freshJob
      else if k < c then ⟨.retryScheduled, k⟩
      else ⟨.failed, c⟩ := by
  induction k with
  | zero => simp [runRetryable]
  | succ k ih =>
    rw [runRetryable, ih]
    by_cases h0 : k = 0
    · subst h0
      rw [if_pos rfl, if_neg (Nat.one_ne_zero)]
      rw [show (freshJob : RJob) = ⟨.pending, 0⟩ from rfl]
      rw [runAttempt_retryable c .pending 0 rfl (by omega)]
      by_cases h1 : 1 < c
      · rw [if_neg (by omega), if_pos h1]
      · have hc1 : c = 1 := by omega
        subst hc1
        rw [if_pos (by omega), if_neg (by omega)]
    · rw [if_neg h0]
      by_cases h1 : k < c
      · rw [if_pos h1, if_neg (Nat.succ_ne_zero k)]
        rw [runAttempt_retryable c .retryScheduled k rfl h1]
        by_cases h2 : k + 1 < c
        · rw [if_neg (by omega), if_pos h2]
        · rw [if_pos (by omega), if_neg h2]
          exact congrArg (RJob.mk .failed) (by omega)
      · rw [if_neg h1, if_neg (Nat.succ_ne_zero k)]
        rw [runAttempt_terminal c ⟨.failed, c⟩ .retryableFailure rfl]
        rw [if_neg (by omega)]

theorem runAttempt_count_le (c : Nat) (j : RJob) (raw : RawOutcome)
    (h : j.attemptCount ≤ c) : (runAttempt c j raw).attemptCount ≤ c := by
  obtain ⟨s, n⟩ := j
  by_cases ht : s.isTerminal = true
  · rw [runAttempt_terminal c ⟨s, n⟩ raw ht]
    exact h
  · rw [Bool.not_eq_true] at ht
    by_cases hb : c ≤ n
    · rw [runAttempt_breach c ⟨s, n⟩ raw ht hb]
      exact h
    · rw [runAttempt_count c s n raw ht (by omega)]
      omega

theorem runOutcomes_count_le (c : Nat) (outs : List RawOutcome) :
    (runOutcomes c outs).attemptCount ≤ c := by
  suffices h : ∀ j : RJob, j.attemptCount ≤ c →
      (outs.foldl (runAttempt c) j).attemptCount ≤ c from
    h freshJob (Nat.zero_le c)
  induction outs with
  | nil => exact fun j h => h
  | cons o t ih => exact fun j h => ih (runAttempt c j o) (runAttempt_count_le c j o h)

/-- C1: with a configured retry ceiling of at least one, a job whose every
attempt is a `RetryableFailure` is `failed` after exactly the ceiling many
attempts and is not `failed` after any smaller number; the attempt count
never exceeds the ceiling for any outcome sequence; and a non-terminal job
already at the ceiling moves to `failed` on the next pass regardless of
the raw outcome. -/
theorem retry_ceiling_exact (ceiling : Nat) (hc : 1 ≤ ceiling) :
    ((runRetryable ceiling ceiling).state = .failed ∧
      (runRetryable ceiling ceiling).attemptCount = ceiling) ∧
    (∀ k, k < ceiling → (runRetryable ceiling k).state ≠ .failed) ∧
    (∀ outs, (runOutcomes ceiling outs).attemptCount ≤ ceiling) ∧
    (∀ j raw, j.state.isTerminal = false → ceiling ≤ j.attemptCount →
      (runAttempt ceiling j raw).state = .failed) := by
  refine ⟨?_, ?_, ?_, ?_⟩
  · rw [runRetryable_closed ceiling hc ceiling]
    rw [if_neg (by omega), if_neg (by omega)]
    exact ⟨rfl, rfl⟩
  · intro k hk
    rw [runRetryable_closed ceiling hc k]
    by_cases h0 : k = 0
    · rw [if_pos h0]
      intro hcon
      exact JobState.noConfusion hcon
    · rw [if_neg h0, if_pos hk]
      intro hcon
      exact JobState.noConfusion hcon
  · exact runOutcomes_count_le ceiling
  · intro j raw ht hb
    rw [runAttempt_breach ceiling j raw ht hb]

theorem retry_ceiling_exact_witness :
    (runRetryable 3 3).state = .failed ∧ (runRetryable 3 3).attemptCount = 3 :=
  (retry_ceiling_exact 3 (by decide)).1

/-- C7: `markInFlight` on a job already in a terminal state is a no-op —
when every job carrying the target id is terminal, the queue is left
entirely unchanged, every field included. -/
theorem markInFlight_terminal_noop (i : Nat) (jobs : List QJob)
    (h : ∀ j ∈ jobs, j.id = i → j.state.isTerminal = true) :
    markInFlight i jobs = jobs := by
  induction jobs with
  | nil => rfl
  | cons a t ih =>
    have ha : (if a.id = i && !a.state.isTerminal
        then { a with state := .inFlight } else a) = a := by
      by_cases hid : a.id = i
      · rw [h a (List.mem_cons_self a t) hid]
        simp
      · simp [hid]
    simp only [markInFlight, List.map_cons]
    rw [ha]
    exact congrArg (List.cons a) (ih fun j hj hji => h j (List.mem_cons_of_mem a hj) hji)

theorem markInFlight_terminal_noop_witness :
    markInFlight 0 [⟨0, "https://x", 3, 0, .succeeded, 0⟩] =
      [⟨0, "https://x", 3, 0, .succeeded, 0⟩] :=
  markInFlight_terminal_noop 0 [⟨0, "https://x", 3, 0, .succeeded, 0⟩]
    (fun j hj _ => by rw [List.mem_singleton] at hj; rw [hj]; rfl)

/-- C5: every reachable domain window keeps its in-flight count at or
below the configured cap; `tryAcquire` succeeds exactly when the count is
below the cap and at least `minSpacingMs` has elapsed since the last
successful acquire; and a dispatch blocked by `tryAcquire` is requeued as
retry-scheduled, never dropped. -/
theorem domain_cap_invariant (cap minSpacingMs : Nat) :
    (∀ w, LimReachable cap minSpacingMs w → w.inFlight ≤ cap) ∧
    (∀ now w, (tryAcquire cap minSpacingMs now w).1 = true ↔
      (w.inFlight < cap ∧ spacingOk minSpacingMs now w = true)) ∧
    (∀ now backoff w j queue, (tryAcquire cap minSpacingMs now w).1 = false →
      ∃ j2, j2 ∈ (dispatchUnderLimit cap minSpacingMs now backoff w j queue).2 ∧
        j2.id = j.id ∧ j2.url = j.url ∧ j2.state = .retryScheduled) := by
  refine ⟨?_, ?_, ?_⟩
  · intro w hw
    induction hw with
    | init => exact Nat.zero_le cap
    | step w v hw hstep ih =>
      cases hstep with
      | acq now w =>
        unfold tryAcquire
        split
        · next hcond => exact hcond.1
        · exact ih
      | rel w => exact le_trans (Nat.sub_le _ _) ih
  · intro now w
    unfold tryAcquire
    split
    · next hcond => simpa using hcond
    · next hcond => simpa using hcond
  · intro now backoff w j queue hfail
    cases htr : tryAcquire cap minSpacingMs now w with
    | mk ok w2 =>
      rw [htr] at hfail
      dsimp only at hfail
      subst hfail
      refine ⟨{ j with state := .retryScheduled, notBefore := now + backoff }, ?_, rfl, rfl, rfl⟩
      simp [dispatchUnderLimit, htr]

theorem domain_cap_invariant_witness :
    emptyWindow.inFlight ≤ 2 :=
  (domain_cap_invariant 2 100).1 emptyWindow LimReachable.init

/-- C4: `acquire` never returns a proxy whose quarantine cool-down is
still running; a quarantined proxy is eligible for selection only once its
cool-down has elapsed; and a quarantined proxy's health becomes `healthy`
only through a success reported for a probe attempt made at an instant
past its cool-down. -/
theorem proxy_quarantine_recovery (cooldownMs threshold : Nat) :
    (∀ now pool p, acquire now pool = some p →
      selectable now p = true ∧ (p.health = .quarantined → p.cooldownUntil ≤ now)) ∧
    (∀ now p, p.health = .quarantined → selectable now p = true →
      p.cooldownUntil ≤ now) ∧
    (∀ p q, ProxyStep cooldownMs threshold p q → p.health = .quarantined →
      q.health = .healthy →
      ∃ now, p.cooldownUntil ≤ now ∧
        q = reportOutcome now cooldownMs threshold p true) := by
  refine ⟨?_, ?_, ?_⟩
  · intro now pool p hacq
    have hsel : selectable now p = true := List.find?_some hacq
    refine ⟨hsel, fun hq => ?_⟩
    simp only [selectable, hq] at hsel
    exact of_decide_eq_true hsel
  · intro now p hq hsel
    simp only [selectable, hq] at hsel
    exact of_decide_eq_true hsel
  · intro p q hstep hq hh
    cases hstep with
    | attempt now p success hsel =>
      cases success with
      | true =>
        refine ⟨now, ?_, rfl⟩
        simp only [selectable, hq] at hsel
        exact of_decide_eq_true hsel
      | false =>
        exfalso
        unfold reportOutcome at hh
        rw [if_neg Bool.false_ne_true] at hh
        dsimp only at hh
        by_cases hth : threshold ≤ p.consecFailures + 1
        · rw [if_pos hth] at hh
          exact ProxyHealth.noConfusion hh
        · rw [if_neg hth] at hh
          dsimp only at hh
          rw [hq] at hh
          rw [if_neg (fun hcon => ProxyHealth.noConfusion hcon)] at hh
          exact ProxyHealth.noConfusion hh

theorem proxy_quarantine_recovery_witness :
    (⟨"p1", .quarantined, 3, 5⟩ : Proxy).cooldownUntil ≤ 10 :=
  (proxy_quarantine_recovery 100 3).2.1 10 ⟨"p1", .quarantined, 3, 5⟩ rfl rfl

theorem precedes_refl (a : QJob) : precedes a a :=
  Or.inr ⟨rfl, le_refl a.submitTime⟩

theorem precedes_trans {a b c : QJob} (h1 : precedes a b) (h2 : precedes b c) :
    precedes a c := by
  rcases h1 with h1 | ⟨e1, t1⟩
  · rcases h2 with h2 | ⟨e2, t2⟩
    · exact Or.inl (lt_trans h1 h2)
    · exact Or.inl (e2 ▸ h1)
  · rcases h2 with h2 | ⟨e2, t2⟩
    · exact Or.inl (e1 ▸ h2)
    · exact Or.inr ⟨e1.trans e2, le_trans t1 t2⟩

theorem beats_true_precedes {a b : QJob} (h : beats a b = true) : precedes a b := by
  unfold beats at h
  simp only [Bool.or_eq_true, Bool.and_eq_true, decide_eq_true_eq] at h
  rcases h with h | ⟨e, l⟩
  · exact Or.inl h
  · exact Or.inr ⟨e, le_of_lt l⟩

theorem beats_false_precedes {a b : QJob} (h : beats b a = false) : precedes a b := by
  unfold beats at h
  simp only [Bool.or_eq_false_iff, Bool.and_eq_false_iff, decide_eq_false_iff_not] at h
  rcases lt_trichotomy a.priority b.priority with hlt | heq | hgt
  · exact Or.inl hlt
  · refine Or.inr ⟨heq, ?_⟩
    rcases h.2 with h2 | h2
    · exact absurd heq.symm h2
    · omega
  · exact absurd hgt h.1

theorem precedes_betterOf_left (a b : QJob) : precedes (betterOf a b) a := by
  unfold betterOf
  split
  · next h => exact beats_true_precedes h
  · exact precedes_refl a

theorem precedes_betterOf_right (a b : QJob) : precedes (betterOf a b) b := by
  unfold betterOf
  split
  · exact precedes_refl b
  · next h => exact beats_false_precedes (Bool.of_not_eq_true h)

theorem foldl_betterOf_mem (j : QJob) (js : List QJob) :
    js.foldl betterOf j ∈ j :: js := by
  induction js generalizing j with
  | nil => exact List.mem_cons_self j []
  | cons b t ih =>
    have hmem := ih (betterOf j b)
    rw [List.foldl_cons]
    rcases List.mem_cons.mp hmem with heq | hmem2
    · rw [heq]
      unfold betterOf
      split
      · exact List.mem_cons_of_mem j (List.mem_cons_self b t)
      · exact List.mem_cons_self j (b :: t)
    · exact List.mem_cons_of_mem j (List.mem_cons_of_mem b hmem2)

theorem foldl_betterOf_min (j : QJob) (js : List QJob) :
    ∀ x ∈ j :: js, precedes (js.foldl betterOf j) x := by
  induction js generalizing j with
  | nil =>
    intro x hx
    rw [List.mem_singleton] at hx
    rw [hx, List.foldl_nil]
    exact precedes_refl j
  | cons b t ih =>
    intro x hx
    rw [List.foldl_cons]
    have hres := ih (betterOf j b)
    rcases List.mem_cons.mp hx with heq | hx2
    · rw [heq]
      exact precedes_trans (hres (betterOf j b) (List.mem_cons_self _ t))
        (precedes_betterOf_left j b)
    · rcases List.mem_cons.mp hx2 with heq | hx3
      · rw [heq]
        exact precedes_trans (hres (betterOf j b) (List.mem_cons_self _ t))
          (precedes_betterOf_right j b)
      · exact hres x (List.mem_cons_of_mem _ hx3)

theorem peekAdmissible_min (now : Nat) (jobs : List QJob) (r : QJob)
    (h : peekAdmissible now jobs = some r) :
    readyAt now r = true ∧ r ∈ jobs ∧
      ∀ j ∈ jobs, readyAt now j = true → precedes r j := by
  unfold peekAdmissible at h
  cases hf : jobs.filter (readyAt now) with
  | nil => rw [hf] at h; exact Option.noConfusion h
  | cons a as =>
    rw [hf] at h
    injection h with h
    subst h
    have hmem : as.foldl betterOf a ∈ jobs.filter (readyAt now) := by
      rw [hf]; exact foldl_betterOf_mem a as
    have hra := List.mem_filter.mp hmem
    refine ⟨hra.2, hra.1, ?_⟩
    intro j hj hready
    have hjf : j ∈ a :: as := by
      rw [← hf]; exact List.mem_filter.mpr ⟨hj, hready⟩
    exact foldl_betterOf_min a as j hjf

/-- C3: `peekAdmissible` always selects, among the ready jobs (pending or
retry-scheduled with `notBefore` elapsed), one that precedes every ready
job by ascending priority value then ascending submission time; and in the
§8 scenario — three jobs submitted with priorities [1, 5, 3], one worker,
an always-succeeding executor — the dispatch order is priority 1, 3, 5. -/
theorem peek_admissible_order :
    (∀ now jobs r, peekAdmissible now jobs = some r →
      readyAt now r = true ∧ r ∈ jobs ∧
        ∀ j ∈ jobs, readyAt now j = true → precedes r j) ∧
    dispatchOrder 0 3 scenarioJobs = [1, 3, 5] := by
  refine ⟨fun now jobs r h => peekAdmissible_min now jobs r h, ?_⟩
  rfl

theorem peek_admissible_order_witness :
    readyAt 0 ⟨0, "https://a.example", 1, 0, .pending, 0⟩ = true ∧
      (⟨0, "https://a.example", 1, 0, .pending, 0⟩ : QJob) ∈ scenarioJobs ∧
      ∀ j ∈ scenarioJobs, readyAt 0 j = true →
        precedes ⟨0, "https://a.example", 1, 0, .pending, 0⟩ j :=
  peek_admissible_order.1 0 scenarioJobs
    ⟨0, "https://a.example", 1, 0, .pending, 0⟩ rfl

theorem flight_fst_nodup (s : DispatchSys) (h : DispatchReachable s) :
    (s.flight.map Prod.fst).Nodup := by
  induction h with
  | init pj => exact List.nodup_nil
  | step s t hs hstep ih =>
    cases hstep with
    | claim w j s hp hf =>
      simp only [List.map_cons]
      refine List.nodup_cons.mpr ⟨?_, ih⟩
      intro hmem
      obtain ⟨⟨j2, w2⟩, hmem2, hfst⟩ := List.mem_map.mp hmem
      dsimp only at hfst
      subst hfst
      exact hf w2 hmem2
    | finish w j requeue s hf =>
      exact List.Nodup.sublist (List.Sublist.map Prod.fst (List.erase_sublist _ _)) ih

theorem eq_of_fst_nodup {l : List (Nat × Nat)} (hl : (l.map Prod.fst).Nodup)
    {j w1 w2 : Nat} (h1 : (j, w1) ∈ l) (h2 : (j, w2) ∈ l) : w1 = w2 := by
  induction l with
  | nil => exact absurd h1 (List.not_mem_nil _)
  | cons a t ih =>
    simp only [List.map_cons, List.nodup_cons] at hl
    rcases List.mem_cons.mp h1 with heq1 | h1t
    · rcases List.mem_cons.mp h2 with heq2 | h2t
      · rw [← heq1] at heq2
        exact (Prod.mk.injEq _ _ _ _ ▸ heq2.symm).2
      · exfalso
        apply hl.1
        rw [← heq1]
        exact List.mem_map.mpr ⟨(j, w2), h2t, rfl⟩
    · rcases List.mem_cons.mp h2 with heq2 | h2t
      · exfalso
        apply hl.1
        rw [← heq2]
        exact List.mem_map.mpr ⟨(j, w1), h1t, rfl⟩
      · exact ih hl.2 h1t h2t

/-- C2: in the concurrent-dispatch model whose claim step is the atomic
`peekAdmissible`+`markInFlight` pair, every reachable state has each job
held in-flight by at most one worker: two claims of the same job coincide
on the worker. -/
theorem at_most_one_worker_per_job (s : DispatchSys) (h : DispatchReachable s)
    (j w1 w2 : Nat) (h1 : (j, w1) ∈ s.flight) (h2 : (j, w2) ∈ s.flight) :
    w1 = w2 :=
  eq_of_fst_nodup (flight_fst_nodup s h) h1 h2

theorem at_most_one_worker_per_job_witness : (1 : Nat) = 1 :=
  at_most_one_worker_per_job ⟨[(7, 1)], []⟩
    (DispatchReachable.step ⟨[], [7]⟩ ⟨[(7, 1)], []⟩
      (DispatchReachable.init [7])
      (DispatchStep.claim 1 7 ⟨[], [7]⟩ (List.mem_singleton.mpr rfl)
        (fun wp => List.not_mem_nil (7, wp))))
    7 1 1 (List.mem_singleton.mpr rfl) (List.mem_singleton.mpr rfl)
